import Mathlib

/-!
Shallow embedding of the type-unification engine in `main.py`: the node model
(`ValueNode` / `TypeNode` / `ListNode`), the `merge` algorithm, the type
registry, the array construction rule (`p_array`), the reference-resolution
step (`p_member`), and the schema serializer (`to_dict`).

Python dicts are modelled as association lists with the usual insertion-order
semantics: lookup finds the first matching key, assignment to an existing key
updates in place, assignment to a fresh key appends.  Mutation of the Python
objects is modelled by explicit value passing; where the source aliases one
object from two places (the freshly registered entry and the value being
attached in `p_member`), the model updates both copies, with a comment at the
spot.
-/

/-- A Python runtime value as stored in `ValueNode.value` (string, int, float,
bool); the Python `None` is modelled as `Option.none` one level up.  Floats
are modelled as rationals (the lexer builds them from finite decimal
literals); Python's numeric cross-type equality such as `True == 1` is not
reproduced, since no code path under verification compares a bool with a
number. -/
inductive PyVal where
  | pstr (s : String)
  | pint (n : Int)
  | pfloat (q : Rat)
  | pbool (b : Bool)
deriving DecidableEq

/-- The error outcomes of the embedded code.  The first three mirror the
`TypeError` messages raised in `main.py` (value mismatch for an identity
attribute, scalar type mismatch, object type mismatch); `attributeError` and
`keyError` stand for the Python `AttributeError` / `KeyError` crashes that the
source can hit on kind combinations it never guards against; the two array
errors mirror the messages raised in `p_array`. -/
inductive Err where
  | valueMismatch (key : Option String) (l r : PyVal)
  | scalarTypeMismatch (key : Option String) (l r : Option String)
  | objectTypeMismatch (otype : Option PyVal) (l r : String)
  | attributeError
  | keyError
  | arrayClassMismatch
  | arrayTypeMismatch
deriving DecidableEq

/-- The closed union of the three node classes of `main.py`.

* `value ty val nullable key` is `ValueNode(type, value, nullable, key)`;
  `ty = none` is the Python `type=None` placeholder produced by a null literal.
* `typeN ty attributes nullable otype snippet ref` is
  `TypeNode(type, attributes, nullable, otype, snippet, ref)`; `attributes` is
  the ordered attribute dict.
* `listN elementType nullable` is `ListNode(element_type, nullable)`. -/
inductive Node where
  | value (ty : Option String) (val : Option PyVal) (nullable : Bool) (key : Option String)
  | typeN (ty : String) (attributes : List (String × Node)) (nullable : Bool)
      (otype : Option PyVal) (snippet : Bool) (ref : Option String)
  | listN (elementType : Option Node) (nullable : Bool)

/-- Association-list lookup: Python `d.get(k)` / `d[k]` on an ordered dict. -/
def alookup {α β : Type} [DecidableEq α] : List (α × β) → α → Option β
  | [], _ => none
  | (k, v) :: r, key => if k = key then some v else alookup r key

/-- Association-list in-place update of the first entry holding `key`:
Python `d[k] = v` when `k` is already present (position preserved). -/
def aupdate {α β : Type} [DecidableEq α] : List (α × β) → α → β → List (α × β)
  | [], _, _ => []
  | (k, v) :: r, key, nv => if k = key then (key, nv) :: r else (k, v) :: aupdate r key nv

/-- Python dict assignment `d[k] = v`: update in place when the key exists,
append otherwise. -/
def pyInsert {β : Type} (l : List (String × β)) (k : String) (v : β) : List (String × β) :=
  if (alookup l k).isSome then aupdate l k v else l ++ [(k, v)]

/-- The `nullable` attribute, present on all three node classes. -/
def Node.nullable : Node → Bool
  | .value _ _ n _ => n
  | .typeN _ _ n _ _ _ => n
  | .listN _ n => n

/-- Assignment `node.nullable = b`. -/
def Node.setNullable : Node → Bool → Node
  | .value ty v _ k, b => .value ty v b k
  | .typeN t a _ o s r, b => .typeN t a b o s r
  | .listN e _, b => .listN e b

/-- Python `getattr(node, "type")` as an optional read: `ValueNode` and
`TypeNode` carry a `type` attribute, `ListNode` does not (reading it raises
`AttributeError`, modelled by `none`). -/
def Node.typeAttr : Node → Option (Option String)
  | .value ty _ _ _ => some ty
  | .typeN t _ _ _ _ _ => some (some t)
  | .listN _ _ => none

/-- First loop of `TypeNode.merge` (lines 123-125): every attribute of the
left node whose key is missing from the right node's attribute dict gets
`nullable = True`. -/
def markMissing (self other : List (String × Node)) : List (String × Node) :=
  self.map (fun p => if (alookup other p.1).isSome then p else (p.1, p.2.setNullable true))

mutual

/-- `merge(self, other)` of `main.py`, dispatching on the class of `self`
exactly as Python method dispatch does.

`ValueNode.merge` (lines 72-86): the unknown placeholder absorbs into the
other operand with `nullable` forced true; the identity-attribute literal
check fires when `self.key` is `"otype"` or `"snippet"` and both literal
values are present and differ; an unknown right operand forces `nullable`;
unequal known kinds are a type mismatch; otherwise `self` is returned
unchanged (the right operand's `nullable` is never consulted).

`TypeNode.merge` (lines 112-133): `nullable` becomes the OR of both; a
`type`-less right operand (the null placeholder) is absorbed; unequal `type`
strings are a mismatch; attribute reconciliation marks one-sided keys
nullable and merges shared keys recursively.

`ListNode.merge` (lines 165-173): `nullable` becomes the OR of both, and then
`self` is returned unchanged: the guard `self.element_type is not ListNode`
compares the element against the class object itself, which no instance (and
not `None`) ever is, so the element-type reconciliation code below the guard
is unreachable. -/
def Node.merge (a b : Node) : Except Err Node :=
  match a with
  | .value ty v nbl key =>
    match ty with
    | none => .ok (b.setNullable true)
    | some t =>
      let idc : Except Err Unit :=
        if key = some "otype" ∨ key = some "snippet" then
          match v with
          | none => .ok ()
          | some la =>
            match b with
            | .value _ w _ _ =>
              match w with
              | none => .ok ()
              | some ra => if la = ra then .ok () else .error (.valueMismatch key la ra)
            | _ => .error .attributeError
        else .ok ()
      match idc with
      | .error e => .error e
      | .ok _ =>
        match b with
        | .value tyb _ _ _ =>
          match tyb with
          | none => .ok (.value (some t) v true key)
          | some t' =>
            if t = t' then .ok (.value (some t) v nbl key)
            else .error (.scalarTypeMismatch key (some t) (some t'))
        | .typeN _ _ _ _ _ _ =>
          if t = "object" then .error .attributeError
          else .error (.scalarTypeMismatch key (some t) (some "object"))
        | .listN _ _ => .error .attributeError
  | .typeN t attrs nbl oty sn ref =>
    match b with
    | .value tyb _ nbl' _ =>
      match tyb with
      | none => .ok (.typeN t attrs (nbl || nbl') oty sn ref)
      | some t' =>
        if t = t' then .error .attributeError
        else .error (.objectTypeMismatch oty t t')
    | .typeN t' attrs' nbl' _ _ _ =>
      if t = t' then
        match mergeInto (markMissing attrs attrs') attrs' with
        | .error e => .error e
        | .ok newAttrs => .ok (.typeN t newAttrs (nbl || nbl') oty sn ref)
      else .error (.objectTypeMismatch oty t t')
    | .listN _ _ => .error .attributeError
  | .listN e nbl =>
    .ok (.listN e (nbl || b.nullable))
termination_by sizeOf b

/-- Second loop of `TypeNode.merge` (lines 127-132): fold the right node's
attributes into the (already `markMissing`-processed) left dict, merging
shared keys and appending one-sided keys with `nullable` forced true. -/
def mergeInto (self : List (String × Node)) (other : List (String × Node)) :
    Except Err (List (String × Node)) :=
  match other with
  | [] => .ok self
  | (k, attr) :: rest =>
    match alookup self k with
    | some s =>
      match Node.merge s attr with
      | .error e => .error e
      | .ok m => mergeInto (aupdate self k m) rest
    | none => mergeInto (self ++ [(k, attr.setNullable true)]) rest
termination_by sizeOf other

end

mutual

/-- Representation invariant of Python-constructed nodes: the unknown scalar
placeholder (`type=None`, built only from a null literal) always carries
`nullable = True`, and attribute dicts have pairwise-distinct keys (they are
Python dicts). -/
def Node.wf : Node → Prop
  | .value ty _ nbl _ => ty ≠ none ∨ nbl = true
  | .typeN _ attrs _ _ _ _ => (attrs.map Prod.fst).Nodup ∧ attrsWf attrs
  | .listN (some e) _ => Node.wf e
  | .listN none _ => True
termination_by n => sizeOf n

/-- All attribute values of a composite node are well formed. -/
def attrsWf : List (String × Node) → Prop
  | [] => True
  | (_, a) :: rest => Node.wf a ∧ attrsWf rest
termination_by l => sizeOf l

end

/-- Python `type(elem) == type(first_element)`: the two nodes are instances of
the same class. -/
def sameClass : Node → Node → Bool
  | .value .., .value .. => true
  | .typeN .., .typeN .. => true
  | .listN .., .listN .. => true
  | _, _ => false

/-- The element loop of `p_array` (lines 263-268): each element after the
first is compared with the first — first by class, then, when both classes
carry a `type` attribute, by that attribute — and a hard error is raised at
the first mismatch.  Elements are never merged here. -/
def checkElements (first : Node) : List Node → Except Err Unit
  | [] => .ok ()
  | e :: rest =>
    if sameClass e first then
      match first.typeAttr, e.typeAttr with
      | some tf, some te =>
        if tf = te then checkElements first rest else .error .arrayTypeMismatch
      | _, _ => checkElements first rest
    else .error .arrayClassMismatch

/-- `p_array` (lines 254-271): an empty array yields
`ListNode(element_type=None, nullable=False)`; a non-empty array takes its
first element as the representative element type after checking every later
element for class/type compatibility with the first. -/
def p_array (elements : List Node) : Except Err Node :=
  match elements with
  | [] => .ok (.listN none false)
  | first :: rest =>
    match checkElements first rest with
    | .error e => .error e
    | .ok _ => .ok (.listN (some first) false)

/-- Registry key: the `(otype, snippet)` pair.  The Python `otype` slot holds
whatever value the `"otype"` attribute carried (a string in every intended
input, `None` when absent). -/
abbrev RKey := Option PyVal × Bool

/-- Python `f"{otype}"`: string formatting of the registry identifier. -/
def pyFormat : Option PyVal → String
  | none => "None"
  | some (.pstr s) => s
  | some (.pint n) => toString n
  | some (.pbool true) => "True"
  | some (.pbool false) => "False"
  | some (.pfloat q) => toString q

/-- The name assigned at first registration (lines 199-207):
`f"{otype}{snippet_append}"` with `snippet_append = "_snippet"` when the
variant flag is set. -/
def mkName (otype : Option PyVal) (snippet : Bool) : String :=
  pyFormat otype ++ (if snippet then "_snippet" else "")

/-- `TypeRegistry` (lines 193-196): the canonical nodes and the assigned
names, both keyed by `(otype, snippet)`. -/
structure TypeRegistry where
  types : List (RKey × Node)
  type_names : List (RKey × String)

/-- `TypeRegistry.register_type` (lines 198-207): merge into the existing
entry in place when the key is present (propagating any merge failure, and
leaving the assigned name untouched); otherwise insert the node as the
canonical entry and record its name. -/
def TypeRegistry.register_type (reg : TypeRegistry) (otype : Option PyVal) (snippet : Bool)
    (node : Node) : Except Err TypeRegistry :=
  let key : RKey := (otype, snippet)
  match alookup reg.types key with
  | some entry =>
    match entry.merge node with
    | .error e => .error e
    | .ok m => .ok { reg with types := aupdate reg.types key m }
  | none =>
    .ok { types := reg.types ++ [(key, node)],
          type_names := reg.type_names ++ [(key, mkName otype snippet)] }

/-- `TypeRegistry.get_preferred_snippet` (lines 215-221): the variant flag of
the preferred entry for an identifier — `false` when present, else `true`,
else nothing. -/
def TypeRegistry.get_preferred_snippet (reg : TypeRegistry) (otype : Option PyVal) : Option Bool :=
  if (alookup reg.types (otype, false)).isSome then some false
  else if (alookup reg.types (otype, true)).isSome then some true
  else none

/-- `TypeRegistry.get_ref` (lines 223-229): the assigned name of the preferred
entry for an identifier. -/
def TypeRegistry.get_ref (reg : TypeRegistry) (otype : Option PyVal) : Option String :=
  match reg.get_preferred_snippet otype with
  | some s => alookup reg.type_names (otype, s)
  | none => none

/-- Python truthiness of the optional name returned by `get_ref`: `None` and
the empty string are falsy. -/
def truthy : Option String → Bool
  | none => false
  | some s => !(s == "")

/-- `p_member` (lines 362-393), the reference-resolution step, as a
transformation of the registry together with the value being attached under
`key`.

For a composite value: when `get_ref` yields a truthy name the value's `ref`
is set to it and its attributes are cleared; otherwise the value is first
registered — and since the freshly inserted canonical entry is then the very
same Python object as the value, setting `ref` and clearing `attributes` on
the value mutates the entry too, which the model reproduces by updating the
entry to the cleared node (when the key was already present, `register_type`
merged into a distinct entry object, which the later mutation of the value
does not touch).

For a list whose element is a composite: the same two branches apply to the
element node, except that in the already-resolvable branch the line clearing
the element's attributes is commented out in the source (line 385), so there
the `ref` is set while the inline attributes are retained.

Anything else is attached verbatim. -/
def p_member (reg : TypeRegistry) (key : String) (value : Node) :
    Except Err (TypeRegistry × String × Node) :=
  match value with
  | .typeN t attrs nbl oty sn rf =>
    let r := reg.get_ref oty
    if truthy r then
      .ok (reg, key, .typeN t [] nbl oty sn r)
    else
      match reg.register_type oty sn (.typeN t attrs nbl oty sn rf) with
      | .error e => .error e
      | .ok reg1 =>
        let name := reg1.get_ref oty
        let cleared : Node := .typeN t [] nbl oty sn name
        let reg2 :=
          if (alookup reg.types (oty, sn)).isSome then reg1
          else { reg1 with types := aupdate reg1.types (oty, sn) cleared }
        .ok (reg2, key, cleared)
  | .listN (some (Node.typeN t attrs nbl oty sn rf)) lnbl =>
    let r := reg.get_ref oty
    if truthy r then
      .ok (reg, key, .listN (some (.typeN t attrs nbl oty sn r)) lnbl)
    else
      match reg.register_type oty sn (.typeN t attrs nbl oty sn rf) with
      | .error e => .error e
      | .ok reg1 =>
        let name := reg1.get_ref oty
        let cleared : Node := .typeN t [] nbl oty sn name
        let reg2 :=
          if (alookup reg.types (oty, sn)).isSome then reg1
          else { reg1 with types := aupdate reg1.types (oty, sn) cleared }
        .ok (reg2, key, .listN (some cleared) lnbl)
  | _ => .ok (reg, key, value)

/-- An output JSON value of the serializer. -/
inductive JVal where
  | jnull
  | jbool (b : Bool)
  | jint (n : Int)
  | jrat (q : Rat)
  | jstr (s : String)
  | jobj (fields : List (String × JVal))

/-- Serialize an optional string (`None` becomes JSON null). -/
def jOptStr : Option String → JVal
  | none => .jnull
  | some s => .jstr s

/-- Serialize a Python value slot. -/
def jPy : Option PyVal → JVal
  | none => .jnull
  | some (.pstr s) => .jstr s
  | some (.pint n) => .jint n
  | some (.pbool b) => .jbool b
  | some (.pfloat q) => .jrat q

/-- `ValueNode.to_dict` (lines 88-92). -/
def valueToDict (ty : Option String) (nullable : Bool) : JVal :=
  .jobj ([("type", jOptStr ty)] ++ if nullable then [("nullable", .jbool true)] else [])

/-- `ListNode.to_dict` (lines 175-190): a composite element serializes as a
bare reference, a nested list recurses, a scalar element serializes in full;
a `None` element crashes (`None.to_dict()`), modelled by `attributeError`. -/
def listToDict (reg : TypeRegistry) : Node → Except Err JVal
  | .listN elem nbl =>
    let base := [("type", JVal.jstr "array")] ++ (if nbl then [("nullable", JVal.jbool true)] else [])
    match elem with
    | some (Node.typeN _ _ _ oty _ _) =>
      .ok (.jobj (base ++ [("element", .jobj [("ref", jOptStr (reg.get_ref oty))])]))
    | some (Node.listN e n) =>
      match listToDict reg (.listN e n) with
      | .error er => .error er
      | .ok inner => .ok (.jobj (base ++ [("element", inner)]))
    | some (Node.value ty _ nb _) => .ok (.jobj (base ++ [("element", valueToDict ty nb)]))
    | none => .error .attributeError
  | _ => .error .attributeError

/-- One attribute of `TypeNode.to_dict` (lines 145-156): a composite
attribute becomes a reference descriptor, a list delegates to the list
serializer, a scalar serializes in full. -/
def attrToDict (reg : TypeRegistry) (attr : Node) : Except Err JVal :=
  match attr with
  | .typeN _ _ nb oty _ _ =>
    .ok (.jobj ([("ref", jOptStr (reg.get_ref oty))] ++
      if nb then [("nullable", JVal.jbool true)] else []))
  | .listN e n => listToDict reg (.listN e n)
  | .value ty _ nb _ => .ok (valueToDict ty nb)

/-- The attribute loop of `TypeNode.to_dict`, building the output dict with
Python dict assignment. -/
def attrsToDict (reg : TypeRegistry) : List (String × Node) → List (String × JVal) →
    Except Err (List (String × JVal))
  | [], acc => .ok acc
  | (k, a) :: rest, acc =>
    match attrToDict reg a with
    | .error e => .error e
    | .ok j => attrsToDict reg rest (pyInsert acc k j)

/-- `TypeNode.to_dict` (lines 135-157).  Registry entries are composite
nodes; the serializer invoked on anything else is modelled as a crash. -/
def typeNodeToDict (reg : TypeRegistry) : Node → Except Err JVal
  | .typeN t attrs nbl oty sn _ =>
    let base := [("type", JVal.jstr t), ("otype", jPy oty), ("snippet", JVal.jbool sn)] ++
      (if nbl then [("nullable", JVal.jbool true)] else [])
    if attrs.isEmpty then .ok (.jobj base)
    else
      match attrsToDict reg attrs [] with
      | .error e => .error e
      | .ok l => .ok (.jobj (base ++ [("attributes", .jobj l)]))
  | _ => .error .attributeError

/-- The entry loop of `TypeRegistry.to_dict` (lines 231-236): emit each entry
under its assigned name, with Python dict assignment (a later entry mapped to
an already-used name overwrites the earlier output). -/
def registryToDictGo (reg : TypeRegistry) : List (RKey × Node) → List (String × JVal) →
    Except Err (List (String × JVal))
  | [], acc => .ok acc
  | (key, node) :: rest, acc =>
    match alookup reg.type_names key with
    | none => .error .keyError
    | some name =>
      match typeNodeToDict reg node with
      | .error e => .error e
      | .ok j => registryToDictGo reg rest (pyInsert acc name j)

/-- `TypeRegistry.to_dict` (lines 231-236). -/
def registryToDict (reg : TypeRegistry) : Except Err (List (String × JVal)) :=
  registryToDictGo reg reg.types []

/-- One registration event: the `(otype, snippet, node)` triple with which a
parsed composite reaches `register_type`. -/
abbrev RegEvent := Option PyVal × Bool × Node

/-- A unification run over the shared module-level registry (line 239): the
registry state is threaded through every registration the run performs; a new
run continues from whatever state the previous runs left behind. -/
def processRun (reg : TypeRegistry) : List RegEvent → Except Err TypeRegistry
  | [] => .ok reg
  | (o, s, n) :: rest =>
    match reg.register_type o s n with
    | .error e => .error e
    | .ok reg' => processRun reg' rest

/-- The registry state the process starts with. -/
def emptyRegistry : TypeRegistry := ⟨[], []⟩

/-- Registry well-formedness, maintained by `register_type` from the empty
registry: the key lists of `types` and `type_names` coincide (entries and
names are created together), keys are pairwise distinct (Python dicts), and
every name is the one assigned at first registration. -/
def RegWF (reg : TypeRegistry) : Prop :=
  (reg.types.map Prod.fst).Nodup ∧
  reg.type_names.map Prod.fst = reg.types.map Prod.fst ∧
  ∀ k ∈ reg.types.map Prod.fst, alookup reg.type_names k = some (mkName k.1 k.2)

/-- The schema-name list a run produces when it continues from registry state
`reg`: the registration events are applied in order and the final registry is
serialized, keeping only the emitted type names. -/
def runSchemaNames (reg : TypeRegistry) (corpus : List RegEvent) : Except Err (List String) :=
  match processRun reg corpus with
  | .error e => .error e
  | .ok r =>
    match registryToDict r with
    | .error e => .error e
    | .ok out => .ok (out.map Prod.fst)

/-- A composite observation of type `a` (concrete instance for the closing
examples). -/
def obsA : Node := .typeN "object" [] false (some (.pstr "a")) false none

/-- A composite observation of type `b`. -/
def obsB : Node := .typeN "object" [] false (some (.pstr "b")) false none

/-- A one-document corpus registering type `a`. -/
def corpusA : List RegEvent := [(some (.pstr "a"), false, obsA)]

/-- A one-document corpus registering type `b`. -/
def corpusB : List RegEvent := [(some (.pstr "b"), false, obsB)]

/-- The registry state after running on `corpusA` from the empty registry. -/
def regA0 : TypeRegistry :=
  ⟨[((some (.pstr "a"), false), obsA)],
   [((some (.pstr "a"), false), mkName (some (.pstr "a")) false)]⟩

/-- The registry state after additionally running on `corpusB`. -/
def regAB0 : TypeRegistry :=
  ⟨[((some (.pstr "a"), false), obsA), ((some (.pstr "b"), false), obsB)],
   [((some (.pstr "a"), false), mkName (some (.pstr "a")) false),
    ((some (.pstr "b"), false), mkName (some (.pstr "b")) false)]⟩

/-- A registered canonical entry for identifier `lang`, full variant. -/
def langEntry : Node :=
  .typeN "object" [("name", .value (some "string") (some (.pstr "Hungarian")) false (some "name"))]
    false (some (.pstr "lang")) false none

/-- A registry already holding the `lang` entry. -/
def regLang : TypeRegistry :=
  ⟨[((some (.pstr "lang"), false), langEntry)],
   [((some (.pstr "lang"), false), mkName (some (.pstr "lang")) false)]⟩

/-- A later parsed occurrence of `lang`, about to be attached as a list
element. -/
def englishElem : Node :=
  .typeN "object" [("name", .value (some "string") (some (.pstr "English")) false (some "name"))]
    false (some (.pstr "lang")) false none

/-- A registry holding both variants of the identifier `language`. -/
def regBoth : TypeRegistry :=
  ⟨[((some (.pstr "language"), false), .typeN "object" [] false (some (.pstr "language")) false none),
    ((some (.pstr "language"), true), .typeN "object" [] false (some (.pstr "language")) true none)],
   [((some (.pstr "language"), false), mkName (some (.pstr "language")) false),
    ((some (.pstr "language"), true), mkName (some (.pstr "language")) true)]⟩

/-- A composite observation carrying identity attributes and an absent-typed
member, used as a concrete idempotence instance. -/
def idemObs : Node :=
  .typeN "object"
    [("otype", .value (some "string") (some (.pstr "p")) false (some "otype")),
     ("name", .value (some "string") (some (.pstr "A")) false (some "name")),
     ("email", .value none none true (some "email"))]
    false (some (.pstr "p")) false none

/-- A composite tagged `otype = "x_snippet"`, no variant flag. -/
def obsXSnippetFalse : Node := .typeN "object" [] false (some (.pstr "x_snippet")) false none

/-- A composite tagged `otype = "x"`, variant flag set. -/
def obsXTrue : Node := .typeN "object" [] false (some (.pstr "x")) true none

/-- The registry holding both of the name-colliding entries. -/
def regX : TypeRegistry :=
  ⟨[((some (.pstr "x_snippet"), false), obsXSnippetFalse), ((some (.pstr "x"), true), obsXTrue)],
   [((some (.pstr "x_snippet"), false), mkName (some (.pstr "x_snippet")) false),
    ((some (.pstr "x"), true), mkName (some (.pstr "x")) true)]⟩

theorem alookup_eq_some_of_mem {α β : Type} [DecidableEq α] {k : α} {a : β}
    {l : List (α × β)} (hnd : (l.map Prod.fst).Nodup) (hm : (k, a) ∈ l) :
    alookup l k = some a := by
  induction l with
  | nil => cases hm
  | cons p t ih =>
    obtain ⟨k', b⟩ := p
    simp only [List.map_cons, List.nodup_cons] at hnd
    rcases List.mem_cons.mp hm with h | h
    · cases h
      simp [alookup]
    · have hk : k' ≠ k := by
        intro he
        apply hnd.1
        rw [he]
        exact List.mem_map.mpr ⟨(k, a), h, rfl⟩
      simp [alookup, hk, ih hnd.2 h]

theorem alookup_isSome_of_mem {α β : Type} [DecidableEq α] {k : α} {a : β}
    {l : List (α × β)} (hm : (k, a) ∈ l) : (alookup l k).isSome = true := by
  induction l with
  | nil => cases hm
  | cons p t ih =>
    obtain ⟨k', b⟩ := p
    rcases List.mem_cons.mp hm with h | h
    · cases h
      simp [alookup]
    · by_cases hk : k' = k
      · simp [alookup, hk]
      · simp [alookup, hk, ih h]

theorem alookup_none_iff_notMem {α β : Type} [DecidableEq α] {k : α} {l : List (α × β)} :
    alookup l k = none ↔ k ∉ l.map Prod.fst := by
  induction l with
  | nil => simp [alookup]
  | cons p t ih =>
    obtain ⟨k', b⟩ := p
    by_cases hk : k' = k
    · subst hk
      simp [alookup]
    · simp [alookup, hk, ih, Ne.symm hk]

theorem alookup_append {α β : Type} [DecidableEq α] (l₁ l₂ : List (α × β)) (k : α) :
    alookup (l₁ ++ l₂) k =
      match alookup l₁ k with
      | some v => some v
      | none => alookup l₂ k := by
  induction l₁ with
  | nil => simp [alookup]
  | cons p t ih =>
    obtain ⟨k', b⟩ := p
    by_cases hk : k' = k <;> simp [alookup, hk, ih]

theorem aupdate_eq_self_of_alookup {α β : Type} [DecidableEq α] {l : List (α × β)} {k : α}
    {v : β} (h : alookup l k = some v) : aupdate l k v = l := by
  induction l with
  | nil => simp [alookup] at h
  | cons p t ih =>
    obtain ⟨k', b⟩ := p
    by_cases hk : k' = k
    · subst hk
      simp [alookup] at h
      simp [aupdate, h]
    · simp [alookup, hk] at h
      simp [aupdate, hk, ih h]

theorem aupdate_map_fst {α β : Type} [DecidableEq α] (l : List (α × β)) (k : α) (v : β) :
    (aupdate l k v).map Prod.fst = l.map Prod.fst := by
  induction l with
  | nil => simp [aupdate]
  | cons p t ih =>
    obtain ⟨k', b⟩ := p
    by_cases hk : k' = k
    · subst hk
      simp [aupdate]
    · simp [aupdate, hk, ih]

theorem alookup_aupdate {α β : Type} [DecidableEq α] (l : List (α × β)) (k : α) (v : β)
    (k' : α) : alookup (aupdate l k v) k' =
      if k' = k ∧ (alookup l k).isSome then some v else alookup l k' := by
  induction l with
  | nil => simp [alookup, aupdate]
  | cons p t ih =>
    obtain ⟨ka, b⟩ := p
    by_cases h1 : ka = k
    · subst h1
      by_cases h2 : ka = k'
      · subst h2
        simp [aupdate, alookup]
      · simp [aupdate, alookup, h2, Ne.symm h2]
    · by_cases h2 : ka = k'
      · subst h2
        simp [aupdate, alookup, h1, Ne.symm h1]
      · simp [aupdate, alookup, h1, h2, ih]

theorem aupdate_append_right {α β : Type} [DecidableEq α] (l : List (α × β)) (k : α)
    (v v' : β) (h : alookup l k = none) :
    aupdate (l ++ [(k, v)]) k v' = l ++ [(k, v')] := by
  induction l with
  | nil => simp [aupdate]
  | cons p t ih =>
    obtain ⟨k', b⟩ := p
    by_cases hk : k' = k
    · subst hk
      simp [alookup] at h
    · simp [alookup, hk] at h
      simp [aupdate, hk, ih h]

theorem acount_filter_eq_one {α β : Type} [DecidableEq α] {l : List (α × β)} {k : α}
    (hnd : (l.map Prod.fst).Nodup) (h : (alookup l k).isSome = true) :
    (l.filter (fun p => p.1 = k)).length = 1 := by
  induction l with
  | nil => simp [alookup] at h
  | cons p t ih =>
    obtain ⟨k', b⟩ := p
    simp only [List.map_cons, List.nodup_cons] at hnd
    by_cases hk : k' = k
    · subst hk
      have hnil : t.filter (fun p => p.1 = k') = [] := by
        apply List.filter_eq_nil_iff.mpr
        intro p hp hcontra
        simp at hcontra
        exact hnd.1 (List.mem_map.mpr ⟨p, hp, hcontra⟩)
      simp [List.filter_cons, hnil]
    · simp [alookup, hk] at h
      simp [List.filter_cons, hk, ih hnd.2 h]

theorem markMissing_self (l sup : List (String × Node))
    (h : ∀ p ∈ l, (alookup sup p.1).isSome = true) : markMissing l sup = l := by
  unfold markMissing
  induction l with
  | nil => simp
  | cons p t ih =>
    have hp : (alookup sup p.1).isSome = true := h p (by simp)
    simp only [List.map_cons, hp, if_pos]
    rw [ih (fun q hq => h q (by simp [hq]))]

theorem mergeInto_eq_self (other : List (String × Node)) :
    ∀ self : List (String × Node),
      (∀ k a, (k, a) ∈ other → alookup self k = some a ∧ Node.merge a a = .ok a) →
      mergeInto self other = .ok self := by
  induction other with
  | nil =>
    intro self _
    simp [mergeInto]
  | cons p rest ih =>
    intro self h
    obtain ⟨k, a⟩ := p
    obtain ⟨hl, hm⟩ := h k a (by simp)
    rw [mergeInto]
    simp only [hl, hm]
    rw [aupdate_eq_self_of_alookup hl]
    exact ih self (fun k' a' hmem => h k' a' (by simp [hmem]))

theorem attrsWf_mem (l : List (String × Node)) (hwf : attrsWf l) :
    ∀ k a, (k, a) ∈ l → Node.wf a := by
  induction l with
  | nil =>
    intro k a hm
    cases hm
  | cons p t ih =>
    intro k a hm
    obtain ⟨k', b⟩ := p
    rw [attrsWf] at hwf
    rcases List.mem_cons.mp hm with h | h
    · cases h
      exact hwf.1
    · exact ih hwf.2 k a h

theorem merge_self_of_wf_aux :
    ∀ (n : Nat) (X : Node), sizeOf X ≤ n → Node.wf X → Node.merge X X = .ok X := by
  intro n
  induction n with
  | zero =>
    intro X hle _
    exfalso
    cases X <;> simp at hle
  | succ n ih =>
    intro X hle hwf
    cases X with
    | value ty v nbl key =>
      cases ty with
      | none =>
        rw [Node.wf] at hwf
        have hnbl : nbl = true := by simpa using hwf
        subst hnbl
        simp [Node.merge, Node.setNullable]
      | some t =>
        rcases Decidable.em (key = some "otype" ∨ key = some "snippet") with hk | hk
        · rcases hk with hk | hk <;> subst hk <;> cases v <;> simp [Node.merge]
        · cases v <;> simp [Node.merge, hk]
    | typeN t attrs nbl oty sn ref =>
      rw [Node.wf] at hwf
      obtain ⟨hnd, hatt⟩ := hwf
      have hmark : markMissing attrs attrs = attrs := by
        apply markMissing_self
        intro p hp
        exact alookup_isSome_of_mem (k := p.1) (a := p.2) (by simpa using hp)
      have hsz : sizeOf attrs ≤ n := by
        simp at hle
        omega
      have hmerge : mergeInto attrs attrs = .ok attrs := by
        apply mergeInto_eq_self
        intro k a hmem
        refine ⟨alookup_eq_some_of_mem hnd hmem, ?_⟩
        apply ih
        · have h1 : sizeOf (k, a) < sizeOf attrs := List.sizeOf_lt_of_mem hmem
          simp at h1
          omega
        · exact attrsWf_mem attrs hatt k a hmem
      simp [Node.merge, hmark, hmerge]
    | listN e nbl =>
      simp [Node.merge, Node.nullable]

theorem register_type_preserves_lookup {reg : TypeRegistry} {o : Option PyVal} {s : Bool}
    {node : Node} {reg' : TypeRegistry} (h : reg.register_type o s node = .ok reg')
    (k : RKey) (hk : (alookup reg.types k).isSome = true) :
    (alookup reg'.types k).isSome = true := by
  simp only [TypeRegistry.register_type] at h
  split at h
  · rename_i entry hfind
    split at h
    · cases h
    · cases h
      rw [alookup_aupdate]
      by_cases hkk : k = (o, s)
      · simp [hkk, hfind]
      · simp [hkk, hk]
  · rename_i hfind
    cases h
    rw [alookup_append]
    cases hl : alookup reg.types k with
    | some v => simp
    | none => rw [hl] at hk; cases hk

theorem register_type_wf {reg : TypeRegistry} {o : Option PyVal} {s : Bool} {node : Node}
    {reg' : TypeRegistry} (hwf : RegWF reg) (h : reg.register_type o s node = .ok reg') :
    RegWF reg' := by
  obtain ⟨hnd, hkeys, hnames⟩ := hwf
  simp only [TypeRegistry.register_type] at h
  split at h
  · rename_i entry hfind
    split at h
    · cases h
    · cases h
      exact ⟨by simpa [aupdate_map_fst] using hnd,
        by simpa [aupdate_map_fst] using hkeys,
        by simpa [aupdate_map_fst] using hnames⟩
  · rename_i hfind
    cases h
    have hnotmem : (o, s) ∉ reg.types.map Prod.fst := alookup_none_iff_notMem.mp hfind
    refine ⟨?_, ?_, ?_⟩
    · simp only [List.map_append, List.map_cons, List.map_nil]
      refine List.Nodup.append hnd (List.nodup_singleton _) ?_
      intro x hx hx2
      rw [List.mem_singleton] at hx2
      subst hx2
      exact hnotmem hx
    · simp [hkeys]
    · intro k hkmem
      simp only [List.map_append, List.map_cons, List.map_nil, List.mem_append,
        List.mem_singleton] at hkmem
      rw [alookup_append]
      rcases hkmem with hkmem | hkmem
      · rw [hnames k hkmem]
      · subst hkmem
        have : alookup reg.type_names (o, s) = none := by
          rw [alookup_none_iff_notMem, hkeys]
          exact hnotmem
        rw [this]
        simp [alookup]

theorem processRun_preserves_lookup :
    ∀ (evs : List RegEvent) (reg reg' : TypeRegistry),
      processRun reg evs = .ok reg' →
      ∀ k, (alookup reg.types k).isSome = true → (alookup reg'.types k).isSome = true := by
  intro evs
  induction evs with
  | nil =>
    intro reg reg' h k hk
    simp [processRun] at h
    rw [← h]
    exact hk
  | cons ev rest ih =>
    intro reg reg' h k hk
    obtain ⟨o, s, n⟩ := ev
    rw [processRun] at h
    cases hr : reg.register_type o s n with
    | error e =>
      rw [hr] at h
      cases h
    | ok reg1 =>
      rw [hr] at h
      exact ih reg1 reg' h k (register_type_preserves_lookup hr k hk)

/-- C1: the specification states that a list/list merge ORs the two optional
flags and that, when the receiving list's element type is absent (the
empty-array case), the result adopts the other list's element type.  The code
does OR the flags, but the guard `self.element_type is not ListNode`
(line 167) is an identity test against the class object itself, always true,
so the element-type adoption below it never runs: at this failing input the
left list's element type stays `none` where the claim requires the int
descriptor to be adopted. -/
theorem list_merge_keeps_absent_element_type :
    Node.merge (.listN none false)
        (.listN (some (.value (some "int") (some (.pint 1)) false none)) true)
      = .ok (.listN none true) ∧
    Node.listN none true
      ≠ .listN (some (.value (some "int") (some (.pint 1)) false none)) true := by
  constructor
  · simp [Node.merge, Node.nullable]
  · simp

/-- C2 counterexample: merging a non-optional string scalar with an optional
string scalar of the same kind yields a node whose `nullable` is `false`, not
the OR (`true`) that the claim requires. -/
theorem scalar_merge_optionality_cex :
    ¬ (Node.merge (.value (some "string") none false none)
          (.value (some "string") none true none)).map Node.nullable
        = .ok ((Node.value (some "string") none false none).nullable
            || (Node.value (some "string") none true none).nullable) := by
  simp [Node.merge, Node.nullable, Except.map]

/-- C2 as amended: for two scalar nodes of the same known kind whose
identity-attribute literals do not conflict, the merge succeeds and returns
the left operand unchanged, so the result's optional flag equals the left
input's optional flag — the right input's optionality is ignored (it is
absorbed only when the right kind is the unknown placeholder). -/
theorem scalar_merge_left_optionality (t : String) (v w : Option PyVal) (nl nr : Bool)
    (kl kr : Option String)
    (hid : kl = some "otype" ∨ kl = some "snippet" → v = none ∨ w = none ∨ v = w) :
    Node.merge (.value (some t) v nl kl) (.value (some t) w nr kr)
      = .ok (.value (some t) v nl kl) := by
  rcases Decidable.em (kl = some "otype" ∨ kl = some "snippet") with hk | hk
  · rcases hid hk with h | h | h
    · subst h
      rw [Node.merge.eq_def]
      simp [hk]
    · subst h
      rw [Node.merge.eq_def]
      cases v <;> simp [hk]
    · subst h
      rw [Node.merge.eq_def]
      cases v <;> simp [hk]
  · rw [Node.merge.eq_def]
    simp [hk]

/-- C2 witness: a concrete same-kind merge on a non-identity attribute where
the left operand is optional and the right is not. -/
theorem scalar_merge_left_optionality_witness :
    ((some "name" : Option String) = some "otype" ∨
        (some "name" : Option String) = some "snippet" →
      (some (PyVal.pstr "A") : Option PyVal) = none ∨
        (some (PyVal.pstr "B") : Option PyVal) = none ∨
        (some (PyVal.pstr "A") : Option PyVal) = some (PyVal.pstr "B")) ∧
    Node.merge (.value (some "string") (some (.pstr "A")) true (some "name"))
        (.value (some "string") (some (.pstr "B")) false (some "name"))
      = .ok (.value (some "string") (some (.pstr "A")) true (some "name")) :=
  have h : (some "name" : Option String) = some "otype" ∨
      (some "name" : Option String) = some "snippet" →
      (some (PyVal.pstr "A") : Option PyVal) = none ∨
        (some (PyVal.pstr "B") : Option PyVal) = none ∨
        (some (PyVal.pstr "A") : Option PyVal) = some (PyVal.pstr "B") := by decide
  ⟨h, scalar_merge_left_optionality "string" (some (.pstr "A")) (some (.pstr "B"))
    true false (some "name") (some "name") h⟩

/-- C3: for a scalar merge where the left node's attribute name is `"otype"`
or `"snippet"`, its kind is known, and both sides carry literal values that
differ, the merge fails with the value-mismatch error naming the attribute
and both values (lines 77-80); the conflict is never silently resolved. -/
theorem identity_attribute_value_mismatch (t : String) (tyr : Option String) (v w : PyVal)
    (nl nr : Bool) (key kr : Option String)
    (hkey : key = some "otype" ∨ key = some "snippet") (hne : v ≠ w) :
    Node.merge (.value (some t) (some v) nl key) (.value tyr (some w) nr kr)
      = .error (.valueMismatch key v w) := by
  rw [Node.merge.eq_def]
  simp [hkey, hne]

/-- C3 witness: two conflicting `otype` literals. -/
theorem identity_attribute_value_mismatch_witness :
    ((some "otype" : Option String) = some "otype" ∨
        (some "otype" : Option String) = some "snippet") ∧
    PyVal.pstr "person" ≠ PyVal.pstr "company" ∧
    Node.merge (.value (some "string") (some (.pstr "person")) false (some "otype"))
        (.value (some "string") (some (.pstr "company")) false (some "otype"))
      = .error (.valueMismatch (some "otype") (.pstr "person") (.pstr "company")) :=
  ⟨Or.inl rfl, by decide,
    identity_attribute_value_mismatch "string" (some "string") (.pstr "person")
      (.pstr "company") false false (some "otype") (some "otype") (Or.inl rfl) (by decide)⟩

theorem mem_of_alookup_isSome {α β : Type} [DecidableEq α] {k : α} {l : List (α × β)}
    (h : (alookup l k).isSome = true) : k ∈ l.map Prod.fst := by
  by_contra hmem
  rw [← alookup_none_iff_notMem] at hmem
  rw [hmem] at h
  cases h

/-- C4: behaviour of `registerType` within one run (lines 198-207): when an
entry already exists at `(identifier, variant)` the new node is merged into
it in place — a merge failure propagates; on success the entry is replaced by
the merge result and the name table is untouched.  When no entry exists, the
node is inserted as the canonical entry with name `identifier` (suffixed
`_snippet` when the variant flag is set).  Consequently, on every successful
registration the registry stays well formed, previously present keys are
never removed, and the registered key holds exactly one entry. -/
theorem register_type_spec (reg : TypeRegistry) (o : Option PyVal) (s : Bool) (node : Node)
    (hwf : RegWF reg) :
    (∀ entry, alookup reg.types (o, s) = some entry →
      (∀ e, entry.merge node = .error e → reg.register_type o s node = .error e) ∧
      (∀ m, entry.merge node = .ok m →
        reg.register_type o s node = .ok ⟨aupdate reg.types (o, s) m, reg.type_names⟩)) ∧
    (alookup reg.types (o, s) = none →
      reg.register_type o s node
        = .ok ⟨reg.types ++ [((o, s), node)], reg.type_names ++ [((o, s), mkName o s)]⟩) ∧
    (∀ reg', reg.register_type o s node = .ok reg' →
      RegWF reg' ∧
      (∀ k, (alookup reg.types k).isSome = true → (alookup reg'.types k).isSome = true) ∧
      (reg'.types.filter (fun p => p.1 = (o, s))).length = 1) := by
  refine ⟨?_, ?_, ?_⟩
  · intro entry hfind
    constructor
    · intro e hm
      simp [TypeRegistry.register_type, hfind, hm]
    · intro m hm
      simp [TypeRegistry.register_type, hfind, hm]
  · intro hfind
    simp [TypeRegistry.register_type, hfind]
  · intro reg' h
    refine ⟨register_type_wf hwf h, fun k hk => register_type_preserves_lookup h k hk, ?_⟩
    apply acount_filter_eq_one (register_type_wf hwf h).1
    simp only [TypeRegistry.register_type] at h
    split at h
    · rename_i entry hfind
      split at h
      · cases h
      · cases h
        rw [alookup_aupdate]
        simp [hfind]
    · rename_i hfind
      cases h
      rw [alookup_append, hfind]
      simp [alookup]

/-- C4 witness: registering a fresh `(t, false)` key into the empty registry
inserts the node under the name `t`. -/
theorem register_type_spec_witness :
    RegWF emptyRegistry ∧
    emptyRegistry.register_type (some (.pstr "t")) false obsA
      = .ok ⟨[((some (.pstr "t"), false), obsA)],
             [((some (.pstr "t"), false), mkName (some (.pstr "t")) false)]⟩ :=
  have h : RegWF emptyRegistry := by
    refine ⟨List.nodup_nil, rfl, ?_⟩
    intro k hk
    simp [emptyRegistry] at hk
  ⟨h, (register_type_spec emptyRegistry (some (.pstr "t")) false obsA h).2.1 rfl⟩

/-- C5 counterexample: the registry is the module-level global of line 239,
shared by every run of the process.  Running on corpus B alone emits the
single schema name `b`, while running on B after a prior run on A emits both
`a` and `b` — the two schemas differ, refuting the claimed two-run equality. -/
theorem fresh_registry_two_run_cex :
    runSchemaNames emptyRegistry corpusB = .ok [mkName (some (.pstr "b")) false] ∧
    processRun emptyRegistry corpusA = .ok regA0 ∧
    runSchemaNames regA0 corpusB
      = .ok [mkName (some (.pstr "a")) false, mkName (some (.pstr "b")) false] ∧
    [mkName (some (.pstr "b")) false]
      ≠ [mkName (some (.pstr "a")) false, mkName (some (.pstr "b")) false] :=
  ⟨rfl, rfl, rfl, by decide⟩

/-- C5 as amended: the registry is one process-wide mutable object; a later
run continues from the registry state the earlier run left behind, and every
key present after the earlier run is still present after the later run, so a
run on B after a run on A generally produces a different schema than B alone
(cross-run contamination). -/
theorem registry_persists_across_runs (A B : List RegEvent) (regA regAB : TypeRegistry)
    (_h1 : processRun emptyRegistry A = .ok regA) (h2 : processRun regA B = .ok regAB)
    (k : RKey) (hk : (alookup regA.types k).isSome = true) :
    (alookup regAB.types k).isSome = true :=
  processRun_preserves_lookup B regA regAB h2 k hk

/-- C5 witness: after a run on corpus A, a run on corpus B still carries A's
entry for key `(a, false)`. -/
theorem registry_persists_across_runs_witness :
    processRun emptyRegistry corpusA = .ok regA0 ∧
    processRun regA0 corpusB = .ok regAB0 ∧
    (alookup regA0.types (some (.pstr "a"), false)).isSome = true ∧
    (alookup regAB0.types (some (.pstr "a"), false)).isSome = true :=
  ⟨rfl, rfl, rfl,
    registry_persists_across_runs corpusA corpusB regA0 regAB0 rfl rfl
      (some (.pstr "a"), false) rfl⟩

/-- C6: `resolveReference` (`get_ref`, lines 215-229) prefers the full
variant: when the `(identifier, false)` entry exists its assigned name is
returned; otherwise the `(identifier, true)` entry's name when that exists;
otherwise nothing.  The full name and the `_snippet` name always differ, so
once both variants are registered, resolution by identifier returns the full
name, never the snippet name. -/
theorem get_ref_preference (reg : TypeRegistry) (hwf : RegWF reg) (o : Option PyVal) :
    ((alookup reg.types (o, false)).isSome = true →
      reg.get_ref o = some (mkName o false)) ∧
    ((alookup reg.types (o, false)).isSome = false →
      (alookup reg.types (o, true)).isSome = true →
      reg.get_ref o = some (mkName o true)) ∧
    ((alookup reg.types (o, false)).isSome = false →
      (alookup reg.types (o, true)).isSome = false →
      reg.get_ref o = none) ∧
    mkName o false ≠ mkName o true := by
  refine ⟨?_, ?_, ?_, ?_⟩
  · intro h1
    rw [TypeRegistry.get_ref, TypeRegistry.get_preferred_snippet]
    simp only [h1, if_true]
    exact hwf.2.2 (o, false) (mem_of_alookup_isSome h1)
  · intro h1 h2
    rw [TypeRegistry.get_ref, TypeRegistry.get_preferred_snippet]
    simp only [h1, h2, if_true, Bool.false_eq_true, if_false]
    exact hwf.2.2 (o, true) (mem_of_alookup_isSome h2)
  · intro h1 h2
    rw [TypeRegistry.get_ref, TypeRegistry.get_preferred_snippet]
    simp [h1, h2]
  · intro heq
    have hlen := congrArg String.length heq
    simp only [mkName, if_neg Bool.false_ne_true, if_pos rfl] at hlen
    rw [String.length_append, String.length_append] at hlen
    simp at hlen
    have h8 : "_snippet".length = 8 := rfl
    omega

/-- C6 witness: with both variants of `language` registered, resolution
returns the full name. -/
theorem get_ref_preference_witness :
    RegWF regBoth ∧
    regBoth.get_ref (some (.pstr "language")) = some (mkName (some (.pstr "language")) false) :=
  have h : RegWF regBoth := by
    unfold RegWF
    decide
  ⟨h, (get_ref_preference regBoth h (some (.pstr "language"))).1 rfl⟩

/-- C7 counterexample: with the `lang` entry already registered, attaching a
list whose element is a `lang` composite sets the element's `ref` to the
resolved name but leaves the element's inline attribute map intact — the
clearing line for this branch is commented out in the source (line 385) — so
a composite node with a non-empty reference and non-empty attributes exists,
refuting the claimed invariant. -/
theorem refpass_list_element_keeps_attributes_cex :
    p_member regLang "languages" (.listN (some englishElem) false)
      = .ok (regLang, "languages",
          .listN (some (.typeN "object"
            [("name", .value (some "string") (some (.pstr "English")) false (some "name"))]
            false (some (.pstr "lang")) false (some (mkName (some (.pstr "lang")) false)))) false) ∧
    ([("name", Node.value (some "string") (some (.pstr "English")) false (some "name"))] :
        List (String × Node)) ≠ [] :=
  ⟨rfl, by simp⟩

theorem get_ref_none_of_wf {reg : TypeRegistry} (hwf : RegWF reg) {o : Option PyVal}
    (h : reg.get_ref o = none) :
    alookup reg.types (o, false) = none ∧ alookup reg.types (o, true) = none := by
  rw [TypeRegistry.get_ref, TypeRegistry.get_preferred_snippet] at h
  cases hx : alookup reg.types (o, false) with
  | some v =>
    exfalso
    have h1 : (alookup reg.types (o, false)).isSome = true := by rw [hx]; rfl
    rw [if_pos h1] at h
    have h' : alookup reg.type_names (o, false) = none := h
    rw [hwf.2.2 (o, false) (mem_of_alookup_isSome h1)] at h'
    cases h'
  | none =>
    have h1 : ¬ (alookup reg.types (o, false)).isSome = true := by rw [hx]; simp
    rw [if_neg h1] at h
    cases hy : alookup reg.types (o, true) with
    | some v =>
      exfalso
      have h2 : (alookup reg.types (o, true)).isSome = true := by rw [hy]; rfl
      rw [if_pos h2] at h
      have h' : alookup reg.type_names (o, true) = none := h
      rw [hwf.2.2 (o, true) (mem_of_alookup_isSome h2)] at h'
      cases h'
    | none => exact ⟨rfl, rfl⟩

/-- C7 as amended: during the reference-resolution pass, a composite value
attached directly under a key has its attributes cleared in both branches
(already resolvable, or registered on the spot), and a list-element composite
has them cleared when it is registered on the spot; but a list-element
composite whose identifier already resolves only gets its `ref` set — its
inline attributes are retained. -/
theorem refpass_clearing_spec (reg : TypeRegistry) (key t : String)
    (attrs : List (String × Node)) (nbl : Bool) (o : Option PyVal) (sn lb : Bool)
    (rf : Option String) (hwf : RegWF reg) :
    (∀ name, reg.get_ref o = some name → name ≠ "" →
      p_member reg key (.typeN t attrs nbl o sn rf)
        = .ok (reg, key, .typeN t [] nbl o sn (some name)) ∧
      p_member reg key (.listN (some (.typeN t attrs nbl o sn rf)) lb)
        = .ok (reg, key, .listN (some (.typeN t attrs nbl o sn (some name))) lb)) ∧
    (reg.get_ref o = none →
      p_member reg key (.typeN t attrs nbl o sn rf)
        = .ok (⟨reg.types ++ [((o, sn), .typeN t [] nbl o sn (some (mkName o sn)))],
                reg.type_names ++ [((o, sn), mkName o sn)]⟩,
               key, .typeN t [] nbl o sn (some (mkName o sn))) ∧
      p_member reg key (.listN (some (.typeN t attrs nbl o sn rf)) lb)
        = .ok (⟨reg.types ++ [((o, sn), .typeN t [] nbl o sn (some (mkName o sn)))],
                reg.type_names ++ [((o, sn), mkName o sn)]⟩,
               key, .listN (some (.typeN t [] nbl o sn (some (mkName o sn)))) lb)) := by
  constructor
  · intro name h hn
    have htr : truthy (some name) = true := by
      simp [truthy, hn]
    constructor
    · simp [p_member, h, htr]
    · simp [p_member, h, htr]
  · intro h0
    have hno := get_ref_none_of_wf hwf h0
    have hkey : alookup reg.types (o, sn) = none := by
      cases sn with
      | false => exact hno.1
      | true => exact hno.2
    have htr : truthy none = false := rfl
    have hreg : reg.register_type o sn (.typeN t attrs nbl o sn rf)
        = .ok ⟨reg.types ++ [((o, sn), .typeN t attrs nbl o sn rf)],
               reg.type_names ++ [((o, sn), mkName o sn)]⟩ := by
      simp [TypeRegistry.register_type, hkey]
    have hnames : alookup reg.type_names (o, sn) = none := by
      rw [alookup_none_iff_notMem, hwf.2.1]
      exact alookup_none_iff_notMem.mp hkey
    have hname : (⟨reg.types ++ [((o, sn), Node.typeN t attrs nbl o sn rf)],
        reg.type_names ++ [((o, sn), mkName o sn)]⟩ : TypeRegistry).get_ref o
        = some (mkName o sn) := by
      cases sn with
      | false =>
        rw [TypeRegistry.get_ref, TypeRegistry.get_preferred_snippet]
        simp [alookup_append, hno.1, alookup, hnames]
      | true =>
        rw [TypeRegistry.get_ref, TypeRegistry.get_preferred_snippet]
        simp [alookup_append, hno.1, hno.2, alookup, hnames, Prod.ext_iff]
    have hupd : aupdate (reg.types ++ [((o, sn), Node.typeN t attrs nbl o sn rf)]) (o, sn)
        (Node.typeN t [] nbl o sn (some (mkName o sn)))
        = reg.types ++ [((o, sn), Node.typeN t [] nbl o sn (some (mkName o sn)))] :=
      aupdate_append_right _ _ _ _ hkey
    constructor
    · simp [p_member, h0, htr, hreg, hname, hkey, hupd]
    · simp [p_member, h0, htr, hreg, hname, hkey, hupd]

/-- C7 witness: with `lang` registered, a direct composite member is replaced
by a cleared reference node. -/
theorem refpass_clearing_spec_witness :
    RegWF regLang ∧
    regLang.get_ref (some (.pstr "lang")) = some (mkName (some (.pstr "lang")) false) ∧
    mkName (some (.pstr "lang")) false ≠ "" ∧
    p_member regLang "owner" englishElem
      = .ok (regLang, "owner", .typeN "object" [] false (some (.pstr "lang")) false
          (some (mkName (some (.pstr "lang")) false))) :=
  have hwf : RegWF regLang := by
    unfold RegWF
    decide
  have h : regLang.get_ref (some (.pstr "lang")) = some (mkName (some (.pstr "lang")) false) := rfl
  have hn : mkName (some (.pstr "lang")) false ≠ "" := by decide
  ⟨hwf, h, hn,
    ((refpass_clearing_spec regLang "owner" "object"
        [("name", .value (some "string") (some (.pstr "English")) false (some "name"))]
        false (some (.pstr "lang")) false false none hwf).1
      (mkName (some (.pstr "lang")) false) h hn).1⟩

theorem sameClass_typeAttr_isSome {e f : Node} (h : sameClass e f = true) :
    e.typeAttr.isSome = f.typeAttr.isSome := by
  cases e <;> cases f <;> first
    | rfl
    | simp [sameClass] at h

theorem checkElements_ok (first : Node) (l : List Node)
    (h : ∀ e ∈ l, sameClass e first = true ∧ e.typeAttr = first.typeAttr) :
    checkElements first l = .ok () := by
  induction l with
  | nil => rfl
  | cons e t ih =>
    obtain ⟨h1, h2⟩ := h e (by simp)
    rw [checkElements]
    rw [h1, h2]
    have ht := ih (fun e' he' => h e' (by simp [he']))
    cases hf : first.typeAttr <;> simp [hf, ht]

theorem checkElements_err (first : Node) (l : List Node)
    (h : ∃ e ∈ l, sameClass e first = false ∨ e.typeAttr ≠ first.typeAttr) :
    ∃ err, checkElements first l = .error err := by
  induction l with
  | nil =>
    obtain ⟨e, he, _⟩ := h
    cases he
  | cons e t ih =>
    by_cases h1 : sameClass e first = true
    · by_cases h2 : e.typeAttr = first.typeAttr
      · have ht : ∃ e' ∈ t, sameClass e' first = false ∨ e'.typeAttr ≠ first.typeAttr := by
          obtain ⟨e', he', hbad⟩ := h
          rcases List.mem_cons.mp he' with heq | hm
          · exfalso
            subst heq
            rcases hbad with hbad | hbad
            · rw [h1] at hbad
              cases hbad
            · exact hbad h2
          · exact ⟨e', hm, hbad⟩
        obtain ⟨err, herr⟩ := ih ht
        refine ⟨err, ?_⟩
        rw [checkElements, h1, h2]
        cases hf : first.typeAttr <;> simp [hf, herr]
      · refine ⟨.arrayTypeMismatch, ?_⟩
        rw [checkElements, h1]
        cases hf : first.typeAttr with
        | none =>
          exfalso
          cases he : e.typeAttr with
          | none =>
            rw [he, hf] at h2
            exact h2 rfl
          | some te =>
            have := sameClass_typeAttr_isSome h1
            rw [he, hf] at this
            cases this
        | some tf =>
          cases he : e.typeAttr with
          | none =>
            exfalso
            have := sameClass_typeAttr_isSome h1
            rw [he, hf] at this
            cases this
          | some te =>
            have hne : ¬ tf = te := by
              intro hcontra
              rw [he, hf] at h2
              exact h2 (by rw [hcontra])
            simp [he, hne]
    · refine ⟨.arrayClassMismatch, ?_⟩
      rw [checkElements]
      simp [Bool.not_eq_true] at h1
      simp [h1]

/-- C8: list construction (`p_array`, lines 254-271).  An empty array yields
a list node with no element type and `optional = false`.  For a non-empty
array, the first element becomes the representative element type unchanged;
each later element is only checked against the first — same class, and equal
`type` attribute where both classes carry one — with a hard error on
mismatch; later elements are never unified into the element type. -/
theorem p_array_spec (first : Node) (rest : List Node) :
    p_array ([] : List Node) = .ok (.listN none false) ∧
    ((∀ e ∈ rest, sameClass e first = true ∧ e.typeAttr = first.typeAttr) →
      p_array (first :: rest) = .ok (.listN (some first) false)) ∧
    ((∃ e ∈ rest, sameClass e first = false ∨ e.typeAttr ≠ first.typeAttr) →
      ∃ err, p_array (first :: rest) = .error err) := by
  refine ⟨rfl, ?_, ?_⟩
  · intro h
    rw [p_array, checkElements_ok first rest h]
  · intro h
    obtain ⟨err, herr⟩ := checkElements_err first rest h
    refine ⟨err, ?_⟩
    rw [p_array, herr]

/-- C8 witness: two compatible string scalars build a list whose element type
is the first element, and the empty case is as claimed. -/
theorem p_array_spec_witness :
    (∀ e ∈ [Node.value (some "string") (some (.pstr "b")) false none],
        sameClass e (Node.value (some "string") (some (.pstr "a")) false none) = true ∧
        e.typeAttr = (Node.value (some "string") (some (.pstr "a")) false none).typeAttr) ∧
    p_array [Node.value (some "string") (some (.pstr "a")) false none,
             Node.value (some "string") (some (.pstr "b")) false none]
      = .ok (.listN (some (.value (some "string") (some (.pstr "a")) false none)) false) :=
  have h : ∀ e ∈ [Node.value (some "string") (some (.pstr "b")) false none],
      sameClass e (Node.value (some "string") (some (.pstr "a")) false none) = true ∧
      e.typeAttr = (Node.value (some "string") (some (.pstr "a")) false none).typeAttr := by
    intro e he
    simp at he
    subst he
    exact ⟨rfl, rfl⟩
  ⟨h, (p_array_spec (Node.value (some "string") (some (.pstr "a")) false none)
      [Node.value (some "string") (some (.pstr "b")) false none]).2.1 h⟩

/-- C9: idempotence — for every well-formed node X (the unknown scalar
placeholder carries `optional = true` and attribute dicts have distinct keys,
both guaranteed by construction), `merge(X, X)` succeeds and returns X
itself, structurally equal and with its optionality unchanged. -/
theorem merge_idempotent (X : Node) (h : Node.wf X) : Node.merge X X = .ok X :=
  merge_self_of_wf_aux (sizeOf X) X (Nat.le_refl _) h

/-- C9 witness: a composite with identity attributes, a known scalar and an
absent-typed member merges with itself to itself. -/
theorem merge_idempotent_witness : Node.wf idemObs ∧ Node.merge idemObs idemObs = .ok idemObs :=
  have h : Node.wf idemObs := by
    rw [idemObs, Node.wf]
    refine ⟨by decide, ?_⟩
    rw [attrsWf, Node.wf]
    refine ⟨by decide, ?_⟩
    rw [attrsWf, Node.wf]
    refine ⟨by decide, ?_⟩
    rw [attrsWf, Node.wf, attrsWf]
    exact ⟨by decide, trivial⟩
  ⟨h, merge_idempotent idemObs h⟩

/-- C10: name collision in the output — registering `(x_snippet, false)` and
then `(x, true)` produces two registry entries whose assigned names are both
the string `x_snippet`; serializing the registry emits the later entry under
that name over the earlier one, so the output holds one entry while the
registry holds two. -/
theorem to_dict_name_collision :
    processRun emptyRegistry
        [(some (.pstr "x_snippet"), false, obsXSnippetFalse),
         (some (.pstr "x"), true, obsXTrue)] = .ok regX ∧
    regX.types.length = 2 ∧
    mkName (some (.pstr "x_snippet")) false = mkName (some (.pstr "x")) true ∧
    registryToDict regX
      = .ok [(mkName (some (.pstr "x")) true,
          .jobj [("type", .jstr "object"), ("otype", .jstr "x"), ("snippet", .jbool true)])] ∧
    (registryToDict regX).map List.length = .ok 1 :=
  ⟨rfl, rfl, by decide, rfl, rfl⟩
